import Mathlib

/-!
Shallow embedding of the SimAlign fingerprint engine (`src/lib.rs`,
`src/hid.rs`, `src/bin/simmatch.rs`) and proofs about the behaviour of
its waveform ingestion, hash accumulation and matching components.

Machine integers (`u64`) are modelled as `Nat` with explicit reduction
modulo `2 ^ 64` at every operation where the Rust code wraps.  Fallible
operations (Rust panics: failed `assert!`, division by zero, index out
of bounds) are modelled with `Except FeedErr`.
-/

namespace SimAlign

/-- Modulus of 64-bit wrapping arithmetic (`u64` in the Rust source). -/
def U64 : Nat := 2 ^ 64

/-- Hierarchical name with optional bit index (`HId` in `hid.rs`:
path segments outermost first, plus an optional signed bit index). -/
structure HId where
  hier : List String
  idx : Option Int
deriving DecidableEq, Repr

/-- Index descriptor of a declared variable (`vcd_ng::ReferenceIndex`):
either a single selected bit or a `[msb:lsb]` range. -/
inductive RefIndex where
  | bitSelect (i : Int)
  | range (msb lsb : Int)
deriving DecidableEq, Repr

/-- A declared variable of the waveform header (`vcd_ng::Var`): its
integer code, bit width (`size`), reference name, and optional index. -/
structure Var where
  code : Nat
  size : Nat
  reference : String
  index : Option RefIndex
deriving DecidableEq, Repr

/-- An item of the waveform header tree (`vcd_ng::ScopeItem`): a
variable declaration, a named scope with children, or a comment. -/
inductive ScopeItem where
  | var (v : Var)
  | scope (identifier : String) (children : List ScopeItem)
  | comment
deriving Repr

mutual
/-- One step of `enumerate_vars` (`lib.rs`): a `Var` item yields the
variable tagged with the current hierarchy extended by its reference
name; a scope pushes its identifier and recurses; other items yield
nothing. -/
def enumVarsItem : ScopeItem → List String → List (List String × Var)
  | .var v, h => [(h ++ [v.reference], v)]
  | .scope id ch, h => enumVarsList ch (h ++ [id])
  | .comment, _ => []

/-- Enumeration of all variables of a header item list, depth first and
in declaration order, each paired with its full hierarchy path
(`enumerate_vars` in `lib.rs`). -/
def enumVarsList : List ScopeItem → List String → List (List String × Var)
  | [], _ => []
  | i :: rest, h => enumVarsItem i h ++ enumVarsList rest h
end

/-- Enumeration of the per-bit `(bit index, offset)` pairs of a declared
variable (`enumerate_bits` in `lib.rs`).  A missing index or a bit
select yield a single pair at offset 0.  A range `[msb:lsb]` with
`msb > lsb` is iterated reversed (`(lsb..msb+1).rev().enumerate()`),
i.e. from `msb` downward with the offset counting up from 0; otherwise
it is iterated from `msb` upward. -/
def enumerateBits : Option RefIndex → List (Option Int × Nat)
  | none => [(none, 0)]
  | some (.bitSelect i) => [(some i, 0)]
  | some (.range msb lsb) =>
    if msb > lsb then
      (List.range (msb - lsb + 1).toNat).map
        (fun (o : Nat) => (some (msb - Int.ofNat o), o))
    else
      (List.range (lsb - msb + 1).toNat).map
        (fun (o : Nat) => (some (msb + Int.ofNat o), o))

/-- First bit of a declared variable (`first_bit` in
`make_vcd_metadata`): absent for scalars, the selected bit, or the
`msb` of a range. -/
def firstBit : Option RefIndex → Option Int
  | none => none
  | some (.bitSelect i) => some i
  | some (.range msb _) => some msb

/-- The hash database (`HashDB` in `lib.rs`): an insertion-ordered map
from names to slot indices, plus the flat vector of fingerprints.  The
`IndexMap` is modelled as an association list in insertion order. -/
structure HashDB where
  name2id : List (HId × Nat)
  hashes : List Nat
deriving DecidableEq, Repr

/-- Lookup in the insertion-ordered map. -/
def name2idLookup (m : List (HId × Nat)) (k : HId) : Option Nat :=
  (m.find? (fun p => p.1 == k)).map (fun p => p.2)

/-- Insertion into the insertion-ordered map with `IndexMap::insert`
semantics: an existing key keeps its position and gets the new value, a
new key is appended at the end. -/
def indexMapInsert (m : List (HId × Nat)) (k : HId) (v : Nat) : List (HId × Nat) :=
  if m.any (fun p => p.1 == k) then
    m.map (fun p => if p.1 == k then (k, v) else p)
  else m ++ [(k, v)]

/-- Panic causes of the ingestion, modelling the Rust `assert!`
failures and arithmetic/indexing panics in `lib.rs`. -/
inductive FeedErr where
  /-- The `hash_used` assert: one slot range received two distinct
  codes within a single trace. -/
  | brokenAlias
  /-- The `id2hash` assert: one code mapped to two distinct starts. -/
  | codeConflict
  /-- Division by zero computing the strobe index. -/
  | divByZero
  /-- Index out of bounds driving the per-bit states. -/
  | oobSlot
deriving DecidableEq, Repr

/-- Transient state of the header pass (`make_vcd_metadata` locals):
the database fields plus `hash_used` (slot owner codes, `u64::MAX`
sentinel modelled as `none`) and `id2hash` (code to start slot,
`usize::MAX` sentinel modelled as `none`). -/
structure MetaState where
  name2id : List (HId × Nat)
  hashes : List Nat
  hashUsed : List (Option Nat)
  id2hash : List (Option Nat)
deriving DecidableEq, Repr

/-- Allocation step on a `name2id` miss: if `id2hash[code]` is already
set, reuse that start; otherwise extend `hashes` with `size` zero
fingerprints (and `hash_used` with `size` unassigned owners) and use
the old length as the start. -/
def allocOrReuse (st : MetaState) (v : Var) : MetaState × Nat :=
  match st.id2hash.getD v.code none with
  | some idp => (st, idp)
  | none =>
    ({ st with
        hashes := st.hashes ++ List.replicate v.size 0,
        hashUsed := st.hashUsed ++ List.replicate v.size none },
      st.hashes.length)

/-- Start-slot resolution for one declared variable: a `name2id` hit on
`(hier, first_bit)` reuses the stored slot; a miss allocates (or
reuses via `id2hash`) and inserts one `name2id` entry per bit of
`enumerate_bits`, mapping each bit to `start + offset`. -/
def resolveStart (st : MetaState) (hier : List String) (v : Var) : MetaState × Nat :=
  match name2idLookup st.name2id ⟨hier, firstBit v.index⟩ with
  | some id => (st, id)
  | none =>
    let (st1, start) := allocOrReuse st v
    ({ st1 with
        name2id := (enumerateBits v.index).foldl
          (fun m p => indexMapInsert m ⟨hier, p.1⟩ (start + p.2)) st1.name2id },
      start)

/-- Processing of one declared variable in the header pass, including
the two asserts of `make_vcd_metadata`: the slot owner (`hash_used`)
must be unassigned or equal to the variable's code, and `id2hash` of
the code must be unset or equal to the resolved start. -/
def metaVarStep (st : MetaState) (hv : List String × Var) : Except FeedErr MetaState :=
  let (st1, start) := resolveStart st hv.1 hv.2
  let hu := st1.hashUsed.getD start none
  if hu = some hv.2.code ∨ hu = none then
    let st2 := { st1 with hashUsed := st1.hashUsed.set start (some hv.2.code) }
    let idp := st2.id2hash.getD hv.2.code none
    if idp = some start ∨ idp = none then
      .ok { st2 with id2hash := st2.id2hash.set hv.2.code (some start) }
    else .error .codeConflict
  else .error .brokenAlias

/-- The header pass (`make_vcd_metadata` in `lib.rs`): computes the
number of codes, then folds the per-variable step over all declared
variables, returning the extended database and the code-to-start
vector. -/
def makeVcdMetadata (db : HashDB) (vars : List (List String × Var)) :
    Except FeedErr (HashDB × List (Option Nat)) :=
  let idCount := vars.foldl (fun a hv => max a (hv.2.code + 1)) 0
  match vars.foldlM metaVarStep
      ⟨db.name2id, db.hashes,
        List.replicate db.hashes.length none,
        List.replicate idCount none⟩ with
  | .error e => .error e
  | .ok st => .ok (⟨st.name2id, st.hashes⟩, st.id2hash)

/-- Per-bit transition state (`BitState` in `lib.rs`). -/
structure BitState where
  last_index : Nat
  last_state : Nat
  cur_state : Nat
deriving DecidableEq, Repr

/-- Fingerprint update (`BitState::update_hash`): when a switch is
pending (`last_index ≠ 0` and `last_state ≠ cur_state`), fold it into
the hash with `h = ((h * 80267270009) + last_index) * 257 +
(cur_state + 1)`, every operation wrapping modulo `2 ^ 64`; otherwise
leave the hash unchanged. -/
def BitState.update_hash (s : BitState) (h : Nat) : Nat :=
  if s.last_index ≠ 0 ∧ s.last_state ≠ s.cur_state then
    ((h * 80267270009 % U64 + s.last_index) % U64 * 257 % U64 + (s.cur_state + 1)) % U64
  else h

/-- A token of the waveform body stream (`FastFlowToken`): a timestamp
or a value change carrying a code and the per-bit byte codes, MSB
first. -/
inductive Token where
  | timestamp (t : Nat)
  | value (code : Nat) (bits : List Nat)
deriving DecidableEq, Repr

/-- Driving of the per-bit states by one value change (the `for (i,
&bit) in bits.iter().enumerate()` loop of `feed_vcd`): bit `i` drives
slot `pos + i`.  An intra-strobe change (`last_index == cur`) only
overwrites `cur_state`; otherwise the pending switch is folded into the
slot's hash and the state is shifted.  A slot index past the end of the
state vector is the Rust index-out-of-bounds panic. -/
def driveBits (cur : Nat) (pos : Nat) (bits : List Nat)
    (states : List BitState) (hashes : List Nat) :
    Except FeedErr (List BitState × List Nat) :=
  match bits with
  | [] => .ok (states, hashes)
  | b :: rest =>
    match states.get? pos with
    | none => .error .oobSlot
    | some s =>
      if s.last_index = cur then
        driveBits cur (pos + 1) rest (states.set pos { s with cur_state := b }) hashes
      else
        driveBits cur (pos + 1) rest
          (states.set pos ⟨cur, s.cur_state, b⟩)
          (hashes.set pos (s.update_hash (hashes.getD pos 0)))

/-- Processing of one body token (`feed_vcd` main loop).  A timestamp
updates the current strobe index: 0 when `t ≤ strobe_start`, otherwise
`(t - strobe_start) / strobe_period + 1`, where a zero period is the
Rust division-by-zero panic.  A value change resolves the code's start
slot (`usize::MAX` sentinel or an out-of-range code panic when a bit is
accessed) and drives the states.  The accumulator is `(cur_time_id,
states, hashes)`. -/
def bodyStep (ss sp : Nat) (indices : List (Option Nat))
    (acc : Nat × List BitState × List Nat) : Token →
    Except FeedErr (Nat × List BitState × List Nat)
  | .timestamp t =>
    if t ≤ ss then .ok (0, acc.2)
    else if sp = 0 then .error .divByZero
    else .ok ((t - ss) / sp + 1, acc.2)
  | .value code bits =>
    if code < indices.length then
      match indices.getD code none with
      | none =>
        match bits with
        | [] => .ok acc
        | _ :: _ => .error .oobSlot
      | some id_st =>
        match driveBits acc.1 id_st bits acc.2.1 acc.2.2 with
        | .error e => .error e
        | .ok (s2, h2) => .ok (acc.1, s2, h2)
    else .error .oobSlot

/-- The inter-trace separator (`feed_vcd` preamble): every stored
fingerprint is multiplied by 100003, wrapping modulo `2 ^ 64`. -/
def sepApplied (db : HashDB) : HashDB :=
  ⟨db.name2id, db.hashes.map (fun v => v * 100003 % U64)⟩

/-- Ingestion after the separator: the header pass, then the body pass
folded over the token stream from strobe index 0 and all-zero bit
states, then the final flush folding each pending switch into its
slot's hash. -/
def feedAfterSep (dbin : HashDB) (vars : List (List String × Var))
    (tokens : List Token) (ss sp : Nat) : Except FeedErr HashDB :=
  match makeVcdMetadata dbin vars with
  | .error e => .error e
  | .ok (db2, indices) =>
    match tokens.foldlM (bodyStep ss sp indices)
        (0, List.replicate db2.hashes.length ⟨0, 0, 0⟩, db2.hashes) with
    | .error e => .error e
    | .ok (_, statesF, hashesF) =>
      .ok ⟨db2.name2id, List.zipWith BitState.update_hash statesF hashesF⟩

/-- Ingestion of an enumerated header and token stream (`feed_vcd` in
`lib.rs`): separator, header pass, body pass, flush. -/
def feedVars (db : HashDB) (vars : List (List String × Var))
    (tokens : List Token) (ss sp : Nat) : Except FeedErr HashDB :=
  feedAfterSep (sepApplied db) vars tokens ss sp

/-- Ingestion of a waveform trace given as a header tree and a token
stream (`HashDB::feed_vcd`). -/
def feed_vcd (db : HashDB) (header : List ScopeItem) (tokens : List Token)
    (ss sp : Nat) : Except FeedErr HashDB :=
  feedVars db (enumVarsList header []) tokens ss sp

/-- One push into the matcher's pool (`simmatch.rs` `enum_db!` loop
body): the group of the fingerprint gets the name appended on the given
side; a first occurrence appends a fresh group at the end. -/
def poolPush (side : Bool) (name : HId) (h : Nat)
    (pool : List (Nat × List HId × List HId)) : List (Nat × List HId × List HId) :=
  if pool.any (fun g => g.1 == h) then
    pool.map (fun g =>
      if g.1 == h then
        (g.1, if side then (g.2.1, g.2.2 ++ [name]) else (g.2.1 ++ [name], g.2.2))
      else g)
  else
    pool ++ [(h, if side then ([], [name]) else ([name], []))]

/-- The matcher's pool (`simmatch.rs`): every `(name, slot)` entry of
database 1 pushes its name into the left list of the group keyed by
`db1.hashes[slot]`, then symmetrically for database 2 into the right
lists, preserving insertion order of first occurrences. -/
def buildPool (db1 db2 : HashDB) : List (Nat × List HId × List HId) :=
  let p1 := db1.name2id.foldl
    (fun pool e => poolPush false e.1 (db1.hashes.getD e.2 0) pool) []
  db2.name2id.foldl
    (fun pool e => poolPush true e.1 (db2.hashes.getD e.2 0) pool) p1

/-- First summary count (`total bit types`): the number of groups. -/
def totalCount (db1 db2 : HashDB) : Nat := (buildPool db1 db2).length

/-- The groups with both sides non-empty (`matched bit types`). -/
def matchedGroups (db1 db2 : HashDB) : List (Nat × List HId × List HId) :=
  (buildPool db1 db2).filter (fun g => !g.2.1.isEmpty && !g.2.2.isEmpty)

/-- Second summary count: groups with both sides non-empty. -/
def matchedCount (db1 db2 : HashDB) : Nat := (matchedGroups db1 db2).length

/-- Third summary count (`matched bit types (threshold K)`): groups
with both sides non-empty and both side sizes at most `K`. -/
def threshCount (db1 db2 : HashDB) (K : Nat) : Nat :=
  ((buildPool db1 db2).filter (fun g =>
    !g.2.1.isEmpty && !g.2.2.isEmpty &&
    g.2.1.length ≤ K && g.2.2.length ≤ K)).length

/-- The detail lines of the matcher: one line per group with both sides
non-empty and both side sizes at most `K`, in pool (first-occurrence)
order. -/
def detailGroups (db1 db2 : HashDB) (K : Nat) : List (Nat × List HId × List HId) :=
  (buildPool db1 db2).filter (fun g =>
    !g.2.1.isEmpty && !g.2.2.isEmpty &&
    g.2.1.length ≤ K && g.2.2.length ≤ K)

/-- The empty database (`HashDB::new`). -/
def HashDB.new : HashDB := ⟨[], []⟩

/-- Header declaring the scalar `top/x` with code 1, width 1. -/
def hdrX : List ScopeItem := [.scope "top" [.var ⟨1, 1, "x", none⟩]]

/-- Token stream of the single-bit scenario: timestamps 0, 10, 20, 30,
with value changes to 1 at t=10, to 0 at t=20, to 1 at t=30. -/
def toksC3 : List Token :=
  [.timestamp 0, .timestamp 10, .value 1 [1], .timestamp 20, .value 1 [0],
   .timestamp 30, .value 1 [1]]

/-- Header declaring the vector `top/v[3:0]` with code 2, width 4. -/
def hdrV : List ScopeItem := [.scope "top" [.var ⟨2, 4, "v", some (.range 3 0)⟩]]

/-- First trace header of the alias-split scenario: `top/a` and `top/b`
share code 1. -/
def hdrT1 : List ScopeItem :=
  [.scope "top" [.var ⟨1, 1, "a", none⟩, .var ⟨1, 1, "b", none⟩]]

/-- Second trace header of the alias-split scenario: `top/a` keeps code
1 while `top/b` is given the distinct code 2. -/
def hdrT2 : List ScopeItem :=
  [.scope "top" [.var ⟨1, 1, "a", none⟩, .var ⟨2, 1, "b", none⟩]]

/-- Header declaring the vector `top/w[1:0]` with code 1, width 2, used
to exercise a value change narrower than the declared width. -/
def hdrW : List ScopeItem := [.scope "top" [.var ⟨1, 2, "w", some (.range 1 0)⟩]]

/-- Header declaring a width-3 variable `m` with no index descriptor. -/
def hdrM : List ScopeItem := [.var ⟨1, 3, "m", none⟩]

/-- A one-slot database with fingerprint 5, for the separator law. -/
def dbW : HashDB := ⟨[(⟨["a"], none⟩, 0)], [5]⟩

/-- Header declaring the fresh scalar `b`, extending `dbW`. -/
def hdrB : List ScopeItem := [.var ⟨1, 1, "b", none⟩]

/-- The left names of the matcher cap scenario: 35 distinct bits. -/
def namesA : List HId := (List.range 35).map (fun i => ⟨["a"], some (Int.ofNat i)⟩)

/-- The right names of the matcher cap scenario: 35 distinct bits. -/
def namesB : List HId := (List.range 35).map (fun i => ⟨["b"], some (Int.ofNat i)⟩)

/-- A database whose 35 bits all carry fingerprint 7. -/
def dbA : HashDB :=
  ⟨(List.range 35).map (fun i => (⟨["a"], some (Int.ofNat i)⟩, i)), List.replicate 35 7⟩

/-- A second database whose 35 bits all carry fingerprint 7. -/
def dbB : HashDB :=
  ⟨(List.range 35).map (fun i => (⟨["b"], some (Int.ofNat i)⟩, i)), List.replicate 35 7⟩

/-- C1: the fingerprint update of a committed transition is
`h := ((h * 80267270009) + last_index) * 257 + (cur_state + 1)` with
all operations wrapping modulo `2 ^ 64`, and the update leaves `h`
unchanged whenever `last_index = 0` or `last_state = cur_state`. -/
theorem C1_update_hash_formula (s : BitState) (h : Nat) :
    (s.last_index ≠ 0 → s.last_state ≠ s.cur_state →
      s.update_hash h =
        ((h * 80267270009 + s.last_index) * 257 + (s.cur_state + 1)) % U64) ∧
    ((s.last_index = 0 ∨ s.last_state = s.cur_state) → s.update_hash h = h) := by
  constructor
  · intro h1 h2
    rw [BitState.update_hash, if_pos ⟨h1, h2⟩]
    simp only [Nat.mod_add_mod, Nat.mod_mul_mod]
  · intro h1
    rw [BitState.update_hash, if_neg]
    rcases h1 with h1 | h1 <;> simp [h1]

/-- Witness for C1 at the concrete transition (1, 0, 1) from h = 0, and
at a sentinel state with last_index = 0. -/
theorem C1_update_hash_formula_witness :
    BitState.update_hash ⟨1, 0, 1⟩ 0 = ((0 * 80267270009 + 1) * 257 + (1 + 1)) % U64 ∧
    BitState.update_hash ⟨0, 0, 1⟩ 7 = 7 :=
  ⟨(C1_update_hash_formula ⟨1, 0, 1⟩ 0).1 (by decide) (by decide),
   (C1_update_hash_formula ⟨0, 0, 1⟩ 7).2 (Or.inl rfl)⟩

/-- C3 counterexample: the single-bit scenario (scalar top/x, code 1,
timestamps 0/10/20/30, values 1/0/1, strobe_start = 0, period = 10)
produces the fold of the transitions (2,0,1), (3,1,0), (4,0,1) — the
strobe index of t = 10 is 10/10 + 1 = 2 — and that fingerprint differs
from the fold of the claimed transitions (1,0,1), (2,1,0), (3,0,1). -/
theorem C3_scenario_counterexample :
    feed_vcd HashDB.new hdrX toksC3 0 10 =
      .ok ⟨[(⟨["top", "x"], none⟩, 0)],
        [BitState.update_hash ⟨4, 0, 1⟩
          (BitState.update_hash ⟨3, 1, 0⟩ (BitState.update_hash ⟨2, 0, 1⟩ 0))]⟩ ∧
    BitState.update_hash ⟨4, 0, 1⟩
        (BitState.update_hash ⟨3, 1, 0⟩ (BitState.update_hash ⟨2, 0, 1⟩ 0)) ≠
      BitState.update_hash ⟨3, 0, 1⟩
        (BitState.update_hash ⟨2, 1, 0⟩ (BitState.update_hash ⟨1, 0, 1⟩ 0)) :=
  ⟨rfl, by decide⟩

/-- C3 amended: the scenario commits exactly the transitions (2,0,1),
(3,1,0), (4,0,1) in that order, so the fingerprint after the final
flush is the fold of those three commits from h = 0 under the update
formula. -/
theorem C3_scenario_actual :
    feed_vcd HashDB.new hdrX toksC3 0 10 =
      .ok ⟨[(⟨["top", "x"], none⟩, 0)],
        [BitState.update_hash ⟨4, 0, 1⟩
          (BitState.update_hash ⟨3, 1, 0⟩ (BitState.update_hash ⟨2, 0, 1⟩ 0))]⟩ := rfl

/-- C4 counterexample: inserting top/v[3:0] creates the name2id entries
in the order (v[3], slot 0), (v[2], slot 1), (v[1], slot 2),
(v[0], slot 3) — the code iterates `(lsb..msb+1).rev()` — which is not
the claimed order (v[0], slot 3), (v[1], slot 2), (v[2], slot 1),
(v[3], slot 0). -/
theorem C4_insertion_order_counterexample :
    makeVcdMetadata HashDB.new (enumVarsList hdrV []) =
      .ok (⟨[(⟨["top", "v"], some 3⟩, 0), (⟨["top", "v"], some 2⟩, 1),
             (⟨["top", "v"], some 1⟩, 2), (⟨["top", "v"], some 0⟩, 3)],
            [0, 0, 0, 0]⟩,
        [none, none, some 0]) ∧
    [(⟨["top", "v"], some 3⟩, 0), (⟨["top", "v"], some 2⟩, 1),
     (⟨["top", "v"], some 1⟩, 2), (⟨["top", "v"], some 0⟩, 3)] ≠
      [((⟨["top", "v"], some 0⟩ : HId), 3), (⟨["top", "v"], some 1⟩, 2),
       (⟨["top", "v"], some 2⟩, 1), (⟨["top", "v"], some 3⟩, 0)] :=
  ⟨rfl, by decide⟩

/-- C5: the code contradicts the alias-split claim (and its own doc
comment): after trace 1 in which top/a and top/b share code 1 and hence
one slot, feeding trace 2 that gives them the distinct codes 1 and 2
aborts with the broken-alias assertion, because the shared slot
receives two distinct codes within trace 2. -/
theorem C5_alias_split_assert :
    feed_vcd HashDB.new hdrT1 [] 0 1 =
      .ok ⟨[(⟨["top", "a"], none⟩, 0), (⟨["top", "b"], none⟩, 0)], [0]⟩ ∧
    feed_vcd ⟨[(⟨["top", "a"], none⟩, 0), (⟨["top", "b"], none⟩, 0)], [0]⟩
        hdrT2 [] 0 1 = .error .brokenAlias :=
  ⟨rfl, rfl⟩

/-- C4 amended: for a range [msb:lsb] with msb ≥ lsb the per-bit
enumeration runs from msb downward, pairing bit msb − o with offset o,
so one name2id entry is created per declared bit with the MSB at offset
0 (bit b maps to slot start + (msb − b)) and for top/v[3:0] the
insertion order is (v[3], slot 0), (v[2], slot 1), (v[1], slot 2),
(v[0], slot 3). -/
theorem C4_insertion_order_amended (msb lsb : Int) (hml : lsb ≤ msb) :
    enumerateBits (some (.range msb lsb)) =
      (List.range (msb - lsb + 1).toNat).map
        (fun (o : Nat) => (some (msb - Int.ofNat o), o)) ∧
    makeVcdMetadata HashDB.new (enumVarsList hdrV []) =
      .ok (⟨[(⟨["top", "v"], some 3⟩, 0), (⟨["top", "v"], some 2⟩, 1),
             (⟨["top", "v"], some 1⟩, 2), (⟨["top", "v"], some 0⟩, 3)],
            [0, 0, 0, 0]⟩,
        [none, none, some 0]) := by
  refine ⟨?_, rfl⟩
  rcases lt_or_eq_of_le hml with hlt | heq
  · rw [enumerateBits, if_pos hlt]
  · subst heq
    rw [enumerateBits, if_neg (lt_irrefl lsb)]
    simp

/-- Witness for C4 at msb = 3, lsb = 0. -/
theorem C4_insertion_order_amended_witness :
    enumerateBits (some (.range 3 0)) =
      (List.range ((3 : Int) - 0 + 1).toNat).map
        (fun (o : Nat) => (some (3 - Int.ofNat o), o)) ∧
    makeVcdMetadata HashDB.new (enumVarsList hdrV []) =
      .ok (⟨[(⟨["top", "v"], some 3⟩, 0), (⟨["top", "v"], some 2⟩, 1),
             (⟨["top", "v"], some 1⟩, 2), (⟨["top", "v"], some 0⟩, 3)],
            [0, 0, 0, 0]⟩,
        [none, none, some 0]) :=
  C4_insertion_order_amended 3 0 (by decide)

/-- Bits driven from strobe index 0 on states that have never committed
only overwrite cur_state: the hashes are untouched and every state
keeps last_index = 0 and last_state = 0. -/
theorem driveBits_zero_state :
    ∀ (bits : List Nat) (pos : Nat) (states : List BitState) (hashes : List Nat)
      (states' : List BitState) (hashes' : List Nat),
    (∀ s ∈ states, s.last_index = 0 ∧ s.last_state = 0) →
    driveBits 0 pos bits states hashes = .ok (states', hashes') →
    hashes' = hashes ∧ ∀ s ∈ states', s.last_index = 0 ∧ s.last_state = 0 := by
  intro bits
  induction bits with
  | nil =>
    intro pos states hashes states' hashes' hinv hok
    simp only [driveBits] at hok
    obtain ⟨h1, h2⟩ := Prod.mk.inj (Except.ok.inj hok)
    subst h1; subst h2
    exact ⟨rfl, hinv⟩
  | cons b rest ih =>
    intro pos states hashes states' hashes' hinv hok
    simp only [driveBits] at hok
    cases hg : states.get? pos with
    | none => rw [hg] at hok; exact absurd hok (by simp)
    | some s =>
      simp only [hg] at hok
      have hs0 := hinv s (List.get?_mem hg)
      rw [if_pos hs0.1] at hok
      refine ih (pos + 1) _ hashes states' hashes' ?_ hok
      intro s2 hs2
      rcases List.mem_or_eq_of_mem_set hs2 with h2 | h2
      · exact hinv s2 h2
      · subst h2; exact ⟨hs0.1, hs0.2⟩

/-- Body pass on a token stream whose timestamps all lie at or before
strobe_start: the hashes are unchanged and every bit state still has
last_index = 0 and last_state = 0. -/
theorem bodyFold_prestrobe :
    ∀ (tokens : List Token) (ss sp : Nat) (indices : List (Option Nat))
      (acc res : Nat × List BitState × List Nat),
    (∀ t, Token.timestamp t ∈ tokens → t ≤ ss) →
    acc.1 = 0 → (∀ s ∈ acc.2.1, s.last_index = 0 ∧ s.last_state = 0) →
    List.foldlM (bodyStep ss sp indices) acc tokens = .ok res →
    res.2.2 = acc.2.2 ∧ res.1 = 0 ∧
      ∀ s ∈ res.2.1, s.last_index = 0 ∧ s.last_state = 0 := by
  intro tokens
  induction tokens with
  | nil =>
    intro ss sp indices acc res hts hacc hinv hok
    rw [List.foldlM_nil] at hok
    have h2 : (Except.ok acc : Except FeedErr _) = .ok res := hok
    obtain rfl := Except.ok.inj h2
    exact ⟨rfl, hacc, hinv⟩
  | cons tok rest ih =>
    intro ss sp indices acc res hts hacc hinv hok
    rw [List.foldlM_cons] at hok
    have hts2 : ∀ t, Token.timestamp t ∈ rest → t ≤ ss := by
      intro t ht; exact hts t (List.mem_cons_of_mem _ ht)
    cases tok with
    | timestamp t =>
      have ht : t ≤ ss := hts t (List.mem_cons_self _ _)
      rw [show bodyStep ss sp indices acc (.timestamp t) = .ok (0, acc.2) from by
        simp only [bodyStep]; rw [if_pos ht]] at hok
      have h2 : List.foldlM (bodyStep ss sp indices) (0, acc.2) rest = .ok res := hok
      exact ih ss sp indices (0, acc.2) res hts2 rfl hinv h2
    | value code bits =>
      simp only [bodyStep] at hok
      by_cases hc : code < indices.length
      case neg =>
        rw [if_neg hc] at hok
        have h2 : (Except.error FeedErr.oobSlot : Except FeedErr _) = .ok res := hok
        cases h2
      case pos =>
        rw [if_pos hc] at hok
        cases hgd : indices.getD code none with
        | none =>
          simp only [hgd] at hok
          cases bits with
          | nil =>
            have h2 : List.foldlM (bodyStep ss sp indices) acc rest = .ok res := hok
            exact ih ss sp indices acc res hts2 hacc hinv h2
          | cons b bs =>
            have h2 : (Except.error FeedErr.oobSlot : Except FeedErr _) = .ok res := hok
            cases h2
        | some id_st =>
          simp only [hgd] at hok
          cases hd : driveBits acc.1 id_st bits acc.2.1 acc.2.2 with
          | error e =>
            rw [hd] at hok
            have h2 : (Except.error e : Except FeedErr _) = .ok res := hok
            cases h2
          | ok p =>
            obtain ⟨s2, h2l⟩ := p
            rw [hd] at hok
            rw [hacc] at hd
            obtain ⟨hh, hinv2⟩ :=
              driveBits_zero_state bits id_st acc.2.1 acc.2.2 s2 h2l hinv hd
            have h2 : List.foldlM (bodyStep ss sp indices) (acc.1, s2, h2l) rest
                = .ok res := hok
            obtain ⟨r1, r2, r3⟩ := ih ss sp indices (acc.1, s2, h2l) res hts2 hacc hinv2 h2
            exact ⟨by rw [r1]; exact hh, r2, r3⟩

/-- C2: a timestamp t is assigned strobe index 0 when t ≤ strobe_start
and (t − strobe_start) / strobe_period + 1 otherwise; a token stream
whose timestamps all lie at or before strobe_start leaves every hash
unchanged and every state uncommitted (so the final flush also leaves
every hash unchanged). -/
theorem C2_strobe_quantization :
    (∀ (ss sp : Nat) (indices : List (Option Nat))
        (acc : Nat × List BitState × List Nat) (t : Nat), sp ≠ 0 →
      bodyStep ss sp indices acc (.timestamp t) =
        .ok (if t ≤ ss then 0 else (t - ss) / sp + 1, acc.2)) ∧
    (∀ (ss sp : Nat) (indices : List (Option Nat)) (tokens : List Token)
        (n : Nat) (hashes0 : List Nat) (res : Nat × List BitState × List Nat),
      (∀ t, Token.timestamp t ∈ tokens → t ≤ ss) →
      List.foldlM (bodyStep ss sp indices)
          (0, List.replicate n ⟨0, 0, 0⟩, hashes0) tokens = .ok res →
      res.2.2 = hashes0 ∧ ∀ s ∈ res.2.1, s.last_index = 0 ∧ s.last_state = 0) ∧
    (∀ (s : BitState) (h : Nat), s.last_index = 0 → s.update_hash h = h) := by
  refine ⟨?_, ?_, ?_⟩
  · intro ss sp indices acc t hsp
    simp only [bodyStep]
    by_cases ht : t ≤ ss
    · rw [if_pos ht, if_pos ht]
    · rw [if_neg ht, if_neg ht, if_neg hsp]
  · intro ss sp indices tokens n hashes0 res hts hok
    have hinv : ∀ s ∈ List.replicate n (⟨0, 0, 0⟩ : BitState),
        s.last_index = 0 ∧ s.last_state = 0 := by
      intro s hs; rw [List.eq_of_mem_replicate hs]; exact ⟨rfl, rfl⟩
    obtain ⟨r1, _, r3⟩ := bodyFold_prestrobe tokens ss sp indices
      (0, List.replicate n ⟨0, 0, 0⟩, hashes0) res hts rfl hinv hok
    exact ⟨r1, r3⟩
  · intro s h hs
    rw [BitState.update_hash, if_neg]
    simp [hs]

/-- Witness for C2: a pre-strobe timestamp, a post-strobe timestamp, a
one-token pre-strobe stream, and a flush of an uncommitted state. -/
theorem C2_strobe_quantization_witness :
    bodyStep 5 2 [] (9, [], [42]) (.timestamp 3) =
      .ok (if 3 ≤ 5 then 0 else (3 - 5) / 2 + 1, ([], [42])) ∧
    bodyStep 5 2 [] (9, [], [42]) (.timestamp 9) =
      .ok (if 9 ≤ 5 then 0 else (9 - 5) / 2 + 1, ([], [42])) ∧
    ([Token.timestamp 3].foldlM (bodyStep 5 2 [])
        (0, List.replicate 1 ⟨0, 0, 0⟩, [42]) = Except.ok (0, [⟨0, 0, 0⟩], [42]) →
      ((0, ([⟨0, 0, 0⟩], [42])) : Nat × List BitState × List Nat).2.2 = [42]) ∧
    BitState.update_hash ⟨0, 1, 0⟩ 42 = 42 := by
  refine ⟨C2_strobe_quantization.1 5 2 [] (9, [], [42]) 3 (by decide),
    C2_strobe_quantization.1 5 2 [] (9, [], [42]) 9 (by decide), ?_, ?_⟩
  · intro hok
    exact (C2_strobe_quantization.2.1 5 2 [] [Token.timestamp 3] 1 [42]
      (0, [⟨0, 0, 0⟩], [42]) (by intro t ht; simp at ht; omega) hok).1
  · exact C2_strobe_quantization.2.2 ⟨0, 1, 0⟩ 42 rfl

/-- Allocation never rewrites stored fingerprints: it at most appends
zeros. -/
theorem allocOrReuse_hashes (st : MetaState) (v : Var) :
    ∃ k, (allocOrReuse st v).1.hashes = st.hashes ++ List.replicate k 0 := by
  cases hi : st.id2hash.getD v.code none with
  | some idp =>
    exact ⟨0, by simp only [allocOrReuse, hi, List.replicate_zero, List.append_nil]⟩
  | none => exact ⟨v.size, by simp only [allocOrReuse, hi]⟩

/-- Start-slot resolution never rewrites stored fingerprints: it at
most appends zeros. -/
theorem resolveStart_hashes (st : MetaState) (hier : List String) (v : Var) :
    ∃ k, (resolveStart st hier v).1.hashes = st.hashes ++ List.replicate k 0 := by
  cases hl : name2idLookup st.name2id ⟨hier, firstBit v.index⟩ with
  | some id =>
    exact ⟨0, by simp only [resolveStart, hl, List.replicate_zero, List.append_nil]⟩
  | none =>
    obtain ⟨k, hk⟩ := allocOrReuse_hashes st v
    rcases ha : allocOrReuse st v with ⟨st1, start⟩
    rw [ha] at hk
    exact ⟨k, by simp only [resolveStart, hl, ha]; exact hk⟩

/-- One header-pass step never rewrites stored fingerprints: it at most
appends zeros. -/
theorem metaVarStep_hashes (st st' : MetaState) (hv : List String × Var)
    (hok : metaVarStep st hv = .ok st') :
    ∃ k, st'.hashes = st.hashes ++ List.replicate k 0 := by
  obtain ⟨k, hk⟩ := resolveStart_hashes st hv.1 hv.2
  rcases hr : resolveStart st hv.1 hv.2 with ⟨st1, start⟩
  rw [hr] at hk
  simp only [metaVarStep, hr] at hok
  split at hok
  · split at hok
    · exact ⟨k, by rw [← Except.ok.inj hok]; exact hk⟩
    · cases hok
  · cases hok

/-- The whole header pass never rewrites stored fingerprints: it at
most appends zeros. -/
theorem metaFold_hashes :
    ∀ (vars : List (List String × Var)) (st st' : MetaState),
    List.foldlM metaVarStep st vars = .ok st' →
    ∃ k, st'.hashes = st.hashes ++ List.replicate k 0 := by
  intro vars
  induction vars with
  | nil =>
    intro st st' hok
    rw [List.foldlM_nil] at hok
    have h2 : (Except.ok st : Except FeedErr _) = .ok st' := hok
    obtain rfl := Except.ok.inj h2
    exact ⟨0, by simp⟩
  | cons hv rest ih =>
    intro st st' hok
    rw [List.foldlM_cons] at hok
    cases hs : metaVarStep st hv with
    | error e =>
      rw [hs] at hok
      have h2 : (Except.error e : Except FeedErr _) = .ok st' := hok
      cases h2
    | ok st1 =>
      rw [hs] at hok
      have h2 : List.foldlM metaVarStep st1 rest = .ok st' := hok
      obtain ⟨k1, hk1⟩ := metaVarStep_hashes st st1 hv hs
      obtain ⟨k2, hk2⟩ := ih st1 st' h2
      exact ⟨k1 + k2, by
        rw [hk2, hk1, List.append_assoc, ← List.replicate_add]⟩

/-- The header pass extends the fingerprint vector only with zeros. -/
theorem makeVcdMetadata_hashes_ext (db : HashDB) (vars : List (List String × Var))
    (db2 : HashDB) (indices : List (Option Nat))
    (hok : makeVcdMetadata db vars = .ok (db2, indices)) :
    ∃ k, db2.hashes = db.hashes ++ List.replicate k 0 := by
  simp only [makeVcdMetadata] at hok
  split at hok
  · cases hok
  · rename_i st heq
    obtain ⟨h1, h2⟩ := Prod.mk.inj (Except.ok.inj hok)
    obtain ⟨k, hk⟩ := metaFold_hashes vars _ st heq
    exact ⟨k, by rw [← h1]; exact hk⟩

/-- The final flush on all-initial bit states changes no hash. -/
theorem zipWith_flush_replicate :
    ∀ (l : List Nat),
    List.zipWith BitState.update_hash (List.replicate l.length ⟨0, 0, 0⟩) l = l := by
  intro l
  induction l with
  | nil => rfl
  | cons x xs ih =>
    rw [List.length_cons, List.replicate_succ, List.zipWith_cons_cons,
      show BitState.update_hash ⟨0, 0, 0⟩ x = x from rfl, ih]

/-- Ingestion given a concrete header-pass result: the body pass folds
the tokens and the flush folds pending switches. -/
theorem feedAfterSep_body (dbin : HashDB) (vars : List (List String × Var))
    (tokens : List Token) (ss sp : Nat) (n2 : List (HId × Nat)) (hs : List Nat)
    (indices : List (Option Nat))
    (hm : makeVcdMetadata dbin vars = .ok (⟨n2, hs⟩, indices)) :
    feedAfterSep dbin vars tokens ss sp =
      match tokens.foldlM (bodyStep ss sp indices)
          (0, List.replicate hs.length ⟨0, 0, 0⟩, hs) with
      | .error e => .error e
      | .ok (_, statesF, hashesF) =>
        .ok ⟨n2, List.zipWith BitState.update_hash statesF hashesF⟩ := by
  simp only [feedAfterSep, hm]

/-- C6: feed_vcd first multiplies every stored fingerprint by 100003
modulo 2^64 (before the header or any token is processed), and feeding
a trace with no tokens therefore leaves every pre-existing fingerprint
multiplied by 100003 while slots newly declared by the header end at
0. -/
theorem C6_separator_law (db : HashDB) (header : List ScopeItem) (ss sp : Nat)
    (db' : HashDB) (hok : feed_vcd db header [] ss sp = .ok db') :
    (∀ tokens, feed_vcd db header tokens ss sp =
        feedAfterSep (sepApplied db) (enumVarsList header []) tokens ss sp) ∧
    ∃ k, db'.hashes =
        db.hashes.map (fun v => v * 100003 % U64) ++ List.replicate k 0 := by
  refine ⟨fun _ => rfl, ?_⟩
  cases hm : makeVcdMetadata (sepApplied db) (enumVarsList header []) with
  | error e =>
    exfalso
    have hok2 : feedAfterSep (sepApplied db) (enumVarsList header []) [] ss sp
        = .ok db' := hok
    simp only [feedAfterSep, hm] at hok2
    cases hok2
  | ok p =>
    obtain ⟨⟨n2, hs⟩, indices⟩ := p
    have hok2 : feedAfterSep (sepApplied db) (enumVarsList header []) [] ss sp
        = .ok db' := hok
    rw [feedAfterSep_body (sepApplied db) (enumVarsList header []) [] ss sp
      n2 hs indices hm] at hok2
    have hok3 : Except.ok (⟨n2,
        List.zipWith BitState.update_hash
          (List.replicate hs.length ⟨0, 0, 0⟩) hs⟩ : HashDB) = .ok db' := hok2
    obtain rfl := Except.ok.inj hok3
    obtain ⟨k, hk⟩ := makeVcdMetadata_hashes_ext (sepApplied db) _ ⟨n2, hs⟩ indices hm
    refine ⟨k, ?_⟩
    show List.zipWith BitState.update_hash (List.replicate hs.length ⟨0, 0, 0⟩) hs = _
    rw [zipWith_flush_replicate]
    exact hk

/-- Witness for C6: extending the one-slot database holding 5 with a
fresh scalar by an empty trace yields 5 * 100003 = 500015 and a fresh
zero slot. -/
theorem C6_separator_law_witness :
    feed_vcd dbW hdrB [] 0 1 =
      .ok ⟨[(⟨["a"], none⟩, 0), (⟨["b"], none⟩, 1)], [500015, 0]⟩ ∧
    ∃ k, (HashDB.mk [(⟨["a"], none⟩, 0), (⟨["b"], none⟩, 1)] [500015, 0]).hashes =
        dbW.hashes.map (fun v => v * 100003 % U64) ++ List.replicate k 0 :=
  ⟨rfl, (C6_separator_law dbW hdrB 0 1 _ rfl).2⟩

/-- C7 counterexample: a value change of 1 bit for a code declared with
width 2 is not rejected — ingestion succeeds, silently driving only the
first slot of the range (final hashes [516, 0]). -/
theorem C7_width_mismatch_counterexample :
    feed_vcd HashDB.new hdrW [Token.timestamp 10, Token.value 1 [1]] 0 10 =
      .ok ⟨[(⟨["top", "w"], some 1⟩, 0), (⟨["top", "w"], some 0⟩, 1)], [516, 0]⟩ ∧
    (feed_vcd HashDB.new hdrW [Token.timestamp 10, Token.value 1 [1]] 0 10).isOk = true :=
  ⟨rfl, rfl⟩

/-- Driving a value change succeeds whenever the whole run of bits fits
inside the state vector, regardless of any declared width, and touches
only the slots pos..pos+len-1. -/
theorem driveBits_frame :
    ∀ (bits : List Nat) (cur pos : Nat) (states : List BitState) (hashes : List Nat),
    pos + bits.length ≤ states.length →
    ∃ states' hashes',
      driveBits cur pos bits states hashes = .ok (states', hashes') ∧
      states'.length = states.length ∧ hashes'.length = hashes.length ∧
      ∀ j, j < pos ∨ pos + bits.length ≤ j →
        states'.get? j = states.get? j ∧ hashes'.get? j = hashes.get? j := by
  intro bits
  induction bits with
  | nil =>
    intro cur pos states hashes _
    exact ⟨states, hashes, rfl, rfl, rfl, fun j _ => ⟨rfl, rfl⟩⟩
  | cons b rest ih =>
    intro cur pos states hashes hlen
    have hpos : pos < states.length := by
      simp only [List.length_cons] at hlen; omega
    have hget : states.get? pos = some (states.get ⟨pos, hpos⟩) := List.get?_eq_get hpos
    by_cases hcase : (states.get ⟨pos, hpos⟩).last_index = cur
    · obtain ⟨s', h', hok, hsl, hhl, hframe⟩ :=
        ih cur (pos + 1)
          (states.set pos { states.get ⟨pos, hpos⟩ with cur_state := b }) hashes
          (by rw [List.length_set]; simp only [List.length_cons] at hlen; omega)
      refine ⟨s', h', ?_, ?_, hhl, ?_⟩
      · simp only [driveBits, hget]
        rw [if_pos hcase]
        exact hok
      · rw [hsl, List.length_set]
      · intro j hj
        have hj3 : j < pos ∨ pos + (rest.length + 1) ≤ j := by
          simpa only [List.length_cons] using hj
        have hj2 : j < pos + 1 ∨ pos + 1 + rest.length ≤ j := by
          rcases hj3 with h3 | h3
          · exact Or.inl (by omega)
          · exact Or.inr (by omega)
        obtain ⟨hf1, hf2⟩ := hframe j hj2
        have hjne : pos ≠ j := by rcases hj3 with h3 | h3 <;> omega
        exact ⟨by rw [hf1, List.get?_set_ne _ _ hjne], hf2⟩
    · obtain ⟨s', h', hok, hsl, hhl, hframe⟩ :=
        ih cur (pos + 1)
          (states.set pos ⟨cur, (states.get ⟨pos, hpos⟩).cur_state, b⟩)
          (hashes.set pos
            ((states.get ⟨pos, hpos⟩).update_hash (hashes.getD pos 0)))
          (by rw [List.length_set]; simp only [List.length_cons] at hlen; omega)
      refine ⟨s', h', ?_, ?_, ?_, ?_⟩
      · simp only [driveBits, hget]
        rw [if_neg hcase]
        exact hok
      · rw [hsl, List.length_set]
      · rw [hhl, List.length_set]
      · intro j hj
        have hj3 : j < pos ∨ pos + (rest.length + 1) ≤ j := by
          simpa only [List.length_cons] using hj
        have hj2 : j < pos + 1 ∨ pos + 1 + rest.length ≤ j := by
          rcases hj3 with h3 | h3
          · exact Or.inl (by omega)
          · exact Or.inr (by omega)
        obtain ⟨hf1, hf2⟩ := hframe j hj2
        have hjne : pos ≠ j := by rcases hj3 with h3 | h3 <;> omega
        exact ⟨by rw [hf1, List.get?_set_ne _ _ hjne],
          by rw [hf2, List.get?_set_ne _ _ hjne]⟩

/-- C7 amended: feed_vcd never checks a value change's bit count
against the declared width — the body pass drives slot base+i for each
i below the bits length whenever that run fits in the state vector
(touching nothing else), so a 1-bit change on the width-2 range is
silently applied to the first slot only (final hashes [516, 0]). -/
theorem C7_width_mismatch_amended (cur pos : Nat) (bits : List Nat)
    (states : List BitState) (hashes : List Nat)
    (hlen : pos + bits.length ≤ states.length) :
    (∃ states' hashes',
      driveBits cur pos bits states hashes = .ok (states', hashes') ∧
      states'.length = states.length ∧ hashes'.length = hashes.length ∧
      ∀ j, j < pos ∨ pos + bits.length ≤ j →
        states'.get? j = states.get? j ∧ hashes'.get? j = hashes.get? j) ∧
    feed_vcd HashDB.new hdrW [Token.timestamp 10, Token.value 1 [1]] 0 10 =
      .ok ⟨[(⟨["top", "w"], some 1⟩, 0), (⟨["top", "w"], some 0⟩, 1)], [516, 0]⟩ :=
  ⟨driveBits_frame bits cur pos states hashes hlen, rfl⟩

/-- Witness for C7 at a 1-bit change driven into a 2-slot vector. -/
theorem C7_width_mismatch_amended_witness :
    (∃ states' hashes',
      driveBits 0 0 [1] [⟨0, 0, 0⟩, ⟨0, 0, 0⟩] [0, 0] = .ok (states', hashes') ∧
      states'.length = ([⟨0, 0, 0⟩, ⟨0, 0, 0⟩] : List BitState).length ∧
      hashes'.length = ([0, 0] : List Nat).length ∧
      ∀ j, j < 0 ∨ 0 + ([1] : List Nat).length ≤ j →
        states'.get? j = ([⟨0, 0, 0⟩, ⟨0, 0, 0⟩] : List BitState).get? j ∧
        hashes'.get? j = ([0, 0] : List Nat).get? j) ∧
    feed_vcd HashDB.new hdrW [Token.timestamp 10, Token.value 1 [1]] 0 10 =
      .ok ⟨[(⟨["top", "w"], some 1⟩, 0), (⟨["top", "w"], some 0⟩, 1)], [516, 0]⟩ :=
  C7_width_mismatch_amended 0 0 [1] [⟨0, 0, 0⟩, ⟨0, 0, 0⟩] [0, 0] (by decide)

/-- C9: with strobe_period = 0, any timestamp beyond strobe_start makes
feed_vcd abort with the division-by-zero panic; with any nonzero
period the strobe-index computation is total and yields
(t − strobe_start) / strobe_period + 1 beyond strobe_start. -/
theorem C9_period_zero_div (ss t : Nat) (hst : ss < t) :
    feed_vcd HashDB.new hdrX [Token.timestamp t] ss 0 = .error .divByZero ∧
    ∀ sp, sp ≠ 0 → ∀ (indices : List (Option Nat))
        (acc : Nat × List BitState × List Nat),
      bodyStep ss sp indices acc (.timestamp t) = .ok ((t - ss) / sp + 1, acc.2) := by
  have hts : ¬ t ≤ ss := by omega
  constructor
  · have hok2 : feed_vcd HashDB.new hdrX [Token.timestamp t] ss 0 =
        feedAfterSep (sepApplied HashDB.new) (enumVarsList hdrX [])
          [Token.timestamp t] ss 0 := rfl
    rw [hok2, feedAfterSep_body (sepApplied HashDB.new) (enumVarsList hdrX [])
      [Token.timestamp t] ss 0 [(⟨["top", "x"], none⟩, 0)] [0] [none, some 0] rfl]
    have hb : ∀ (acc : Nat × List BitState × List Nat),
        bodyStep ss 0 [none, some 0] acc (.timestamp t) = .error .divByZero := by
      intro acc
      simp only [bodyStep]
      rw [if_neg hts]
      simp
    rw [List.foldlM_cons, hb]
    rfl
  · intro sp hsp indices acc
    simp only [bodyStep]
    rw [if_neg hts, if_neg hsp]

/-- Witness for C9 at strobe_start = 0, t = 1, and period 2. -/
theorem C9_period_zero_div_witness :
    feed_vcd HashDB.new hdrX [Token.timestamp 1] 0 0 = .error .divByZero ∧
    bodyStep 0 2 [] (9, [], [4]) (.timestamp 1) = .ok ((1 - 0) / 2 + 1, ([], [4])) :=
  ⟨(C9_period_zero_div 0 1 (by decide)).1,
   (C9_period_zero_div 0 1 (by decide)).2 2 (by decide) [] (9, [], [4])⟩

/-- C10: a width-w variable with no index descriptor allocates w slots
and w zero fingerprints but inserts exactly one name2id entry — the
name with absent bit index mapped to the range's first slot — so no
entry ever points at slots 1..w−1; concretely, with width 3, a full
3-bit value change drives and hashes all three slots (hashes
[516, 516, 516]) while the matcher pool built from the resulting
database only carries the single named bit. -/
theorem C10_unnamed_slots (w : Nat) (ref : String) (hw : 1 < w) :
    (∃ idx, makeVcdMetadata HashDB.new (enumVarsList [.var ⟨1, w, ref, none⟩] []) =
        .ok (⟨[(⟨[ref], none⟩, 0)], List.replicate w 0⟩, idx)) ∧
    (∀ e ∈ [((⟨[ref], none⟩ : HId), 0)], ∀ j, 1 ≤ j → e.2 ≠ j) ∧
    feed_vcd HashDB.new hdrM [Token.timestamp 10, Token.value 1 [1, 1, 1]] 0 10 =
      .ok ⟨[(⟨["m"], none⟩, 0)], [516, 516, 516]⟩ ∧
    buildPool ⟨[(⟨["m"], none⟩, 0)], [516, 516, 516]⟩
        ⟨[(⟨["m"], none⟩, 0)], [516, 516, 516]⟩ =
      [(516, [⟨["m"], none⟩], [⟨["m"], none⟩])] := by
  obtain ⟨w2, rfl⟩ : ∃ w2, w = w2 + 2 := ⟨w - 2, by omega⟩
  refine ⟨⟨[none, some 0], rfl⟩, ?_, rfl, rfl⟩
  intro e he j hj
  have he2 : e = (⟨[ref], none⟩, 0) := by
    simpa using he
  rw [he2]
  omega

/-- A pool push keeps the group keys unchanged, or appends the new
fingerprint when it is a first occurrence. -/
theorem poolPush_keys (side : Bool) (n : HId) (h : Nat)
    (pool : List (Nat × List HId × List HId)) :
    (poolPush side n h pool).map (fun g => g.1) =
      if pool.any (fun g => g.1 == h) then pool.map (fun g => g.1)
      else pool.map (fun g => g.1) ++ [h] := by
  rw [poolPush]
  split
  · rw [List.map_map]
    refine List.map_congr_left ?_
    intro g _
    by_cases hgh : (g.1 == h) = true
    · simp [Function.comp, hgh]
    · simp [Function.comp, hgh]
  · rw [List.map_append]
    rfl

/-- A pool push preserves distinctness of the group keys. -/
theorem poolPush_keys_nodup (side : Bool) (n : HId) (h : Nat)
    (pool : List (Nat × List HId × List HId))
    (hnd : (pool.map (fun g => g.1)).Nodup) :
    ((poolPush side n h pool).map (fun g => g.1)).Nodup := by
  rw [poolPush_keys]
  split
  · exact hnd
  · rename_i hany
    rw [List.nodup_append]
    refine ⟨hnd, List.nodup_singleton h, ?_⟩
    intro a ha hb
    have hab : a = h := by simpa using hb
    subst hab
    obtain ⟨g1, g2, hg⟩ : ∃ g1 g2, (a, g1, g2) ∈ pool := by simpa using ha
    exact hany (List.any_eq_true.mpr ⟨(a, g1, g2), hg, by simp⟩)

/-- Folding pool pushes over any entry list preserves distinctness of
the group keys. -/
theorem poolFold_keys_nodup :
    ∀ (entries : List (HId × Nat)) (f : HId × Nat → Nat) (side : Bool)
      (pool : List (Nat × List HId × List HId)),
    (pool.map (fun g => g.1)).Nodup →
    ((entries.foldl (fun pool e => poolPush side e.1 (f e) pool) pool).map
      (fun g => g.1)).Nodup := by
  intro entries
  induction entries with
  | nil => intro f side pool hnd; exact hnd
  | cons e rest ih =>
    intro f side pool hnd
    rw [List.foldl_cons]
    exact ih f side _ (poolPush_keys_nodup side e.1 (f e) pool hnd)

/-- The matcher pool has pairwise distinct fingerprint keys, so its
length counts distinct fingerprints. -/
theorem buildPool_keys_nodup (db1 db2 : HashDB) :
    ((buildPool db1 db2).map (fun g => g.1)).Nodup := by
  exact poolFold_keys_nodup db2.name2id (fun e => db2.hashes.getD e.2 0) true _
    (poolFold_keys_nodup db1.name2id (fun e => db1.hashes.getD e.2 0) false []
      (by simp))

/-- C8: the matcher prints the group count (of distinct fingerprints),
the count of groups with both sides non-empty, and the count of groups
with both sides non-empty and both sizes at most K; it emits a detail
line exactly for the groups of that third kind, in pool order; a group
with 35 names on each side under K = 30 is counted by the second
summary but not the third and gets no detail line. -/
theorem C8_matcher_report (db1 db2 : HashDB) (h : Nat) (l r : List HId)
    (hmem : (h, l, r) ∈ buildPool db1 db2)
    (hl : l.length = 35) (hr : r.length = 35) :
    ((buildPool db1 db2).map (fun g => g.1)).Nodup ∧
    matchedCount db1 db2 = (matchedGroups db1 db2).length ∧
    threshCount db1 db2 30 = (detailGroups db1 db2 30).length ∧
    (∀ (g : Nat × List HId × List HId) (K : Nat),
      g ∈ detailGroups db1 db2 K ↔
        g ∈ buildPool db1 db2 ∧ g.2.1 ≠ [] ∧ g.2.2 ≠ [] ∧
          g.2.1.length ≤ K ∧ g.2.2.length ≤ K) ∧
    (h, l, r) ∈ matchedGroups db1 db2 ∧
    (h, l, r) ∉ detailGroups db1 db2 30 := by
  have hl' : l ≠ [] := by intro hnil; rw [hnil] at hl; simp at hl
  have hr' : r ≠ [] := by intro hnil; rw [hnil] at hr; simp at hr
  refine ⟨buildPool_keys_nodup db1 db2, rfl, rfl, ?_, ?_, ?_⟩
  · intro g K
    rw [detailGroups, List.mem_filter]
    simp [List.isEmpty_iff, and_assoc]
  · rw [matchedGroups, List.mem_filter]
    refine ⟨hmem, ?_⟩
    simp [List.isEmpty_iff, hl', hr']
  · rw [detailGroups, List.mem_filter]
    rintro ⟨-, hp⟩
    simp [List.isEmpty_iff, hl, hr] at hp

set_option maxRecDepth 100000 in
/-- Witness for C8 on two 35-bit databases sharing fingerprint 7. -/
theorem C8_matcher_report_witness :
    (7, namesA, namesB) ∈ matchedGroups dbA dbB ∧
    (7, namesA, namesB) ∉ detailGroups dbA dbB 30 := by
  have H := C8_matcher_report dbA dbB 7 namesA namesB (by decide) (by decide) (by decide)
  exact ⟨H.2.2.2.2.1, H.2.2.2.2.2⟩

/-- Witness for C10 at width 3 and reference name m. -/
theorem C10_unnamed_slots_witness :
    (∃ idx, makeVcdMetadata HashDB.new (enumVarsList [.var ⟨1, 3, "m", none⟩] []) =
        .ok (⟨[(⟨["m"], none⟩, 0)], List.replicate 3 0⟩, idx)) ∧
    (∀ e ∈ [((⟨["m"], none⟩ : HId), 0)], ∀ j, 1 ≤ j → e.2 ≠ j) ∧
    feed_vcd HashDB.new hdrM [Token.timestamp 10, Token.value 1 [1, 1, 1]] 0 10 =
      .ok ⟨[(⟨["m"], none⟩, 0)], [516, 516, 516]⟩ ∧
    buildPool ⟨[(⟨["m"], none⟩, 0)], [516, 516, 516]⟩
        ⟨[(⟨["m"], none⟩, 0)], [516, 516, 516]⟩ =
      [(516, [⟨["m"], none⟩], [⟨["m"], none⟩])] :=
  C10_unnamed_slots 3 "m" (by decide)

end SimAlign
